import Mathlib

/-!
Verification of the arXiv semantic-search MCP core against its source.

The definitions below are a shallow embedding of the Python source files
`src/arxiv_client.py`, `src/models.py`, `src/semantic_search_client.py`
and `src/server.py`.  Pure string manipulation is modelled on `List Char`
(`String.data`), Python truthiness of optional strings is made explicit,
and code that raises is modelled with `Except`/`Option`.
-/

set_option maxHeartbeats 1000000

/-! ### Python string helpers -/

/-- Python truthiness of an optional string: `None` and `""` are falsy. -/
def truthy : Option String → Bool
  | some s => s != ""
  | none => false

/-- The text of an optional element, where the caller has already ensured
presence (models the `cast(str, ...)` uses in the source). -/
def orEmpty : Option String → String
  | some s => s
  | none => ""

/-- Whitespace characters recognised by Python `str.strip()`. -/
def isPyWS (c : Char) : Bool :=
  c = ' ' || c = '\t' || c = '\n' || c = '\r' || c = Char.ofNat 11 || c = Char.ofNat 12

/-- Python `str.strip()` on the character list. -/
def stripWSL (l : List Char) : List Char :=
  ((l.dropWhile isPyWS).reverse.dropWhile isPyWS).reverse

/-- Python `str.strip()`. -/
def pyStrip (s : String) : String := ⟨stripWSL s.data⟩

/-- Python `s.replace("-", "")`: drop every dash. -/
def removeDashes (s : String) : String := ⟨s.data.filter (fun c => c != '-')⟩

/-- Value of a decimal digit character. -/
def digitVal (c : Char) : Nat := c.toNat - ('0').toNat

/-- All characters are decimal digits. -/
def allDigits (l : List Char) : Bool := l.all Char.isDigit

/-- Fold a digit list into a natural number. -/
def digitsToNat (l : List Char) : Nat := l.foldl (fun acc c => acc * 10 + digitVal c) 0

/-- Python `int(s)` on a string: optional surrounding whitespace, optional
sign, then one or more digits; anything else raises (here: `none`). -/
def pyIntParse (s : String) : Option Int :=
  match stripWSL s.data with
  | '+' :: r => if r ≠ [] ∧ allDigits r then some (Int.ofNat (digitsToNat r)) else none
  | '-' :: r => if r ≠ [] ∧ allDigits r then some (-(Int.ofNat (digitsToNat r))) else none
  | r => if r ≠ [] ∧ allDigits r then some (Int.ofNat (digitsToNat r)) else none

/-- Python `int(text)` where `text` may be `None` (`int(None)` raises). -/
def pyIntOfOpt : Option String → Option Int
  | none => none
  | some s => pyIntParse s

/-- Whether an `Except` result is an error. -/
def isErr {ε α : Type} : Except ε α → Bool
  | Except.error _ => true
  | Except.ok _ => false

/-! ### Identifier normalizer (`ArxivClient.normalize_arxiv_id`) -/

/-- Does the list start with the given character list? -/
def startsWithL : List Char → List Char → Bool
  | [], _ => true
  | _ :: _, [] => false
  | p :: ps, c :: cs => if p = c then startsWithL ps cs else false

/-- Strip a literal character-list lead from a list, if present. -/
def stripL : List Char → List Char → Option (List Char)
  | [], s => some s
  | _ :: _, [] => none
  | p :: ps, c :: cs => if p = c then stripL ps cs else none

def httpPre : List Char := ['h', 't', 't', 'p', ':', '/', '/']
def httpsPre : List Char := ['h', 't', 't', 'p', 's', ':', '/', '/']
def absPre : List Char := ['a', 'r', 'x', 'i', 'v', '.', 'o', 'r', 'g', '/', 'a', 'b', 's', '/']
def pdfPre : List Char := ['a', 'r', 'x', 'i', 'v', '.', 'o', 'r', 'g', '/', 'p', 'd', 'f', '/']

/-- The optional `v<digits>` tail of the capture group `(?:v[0-9]+)?`. -/
def vPart : List Char → List Char
  | c :: r =>
    if c = 'v' then
      if r.takeWhile Char.isDigit = [] then [] else 'v' :: r.takeWhile Char.isDigit
    else []
  | [] => []

/-- Greedy capture of `[0-9]+\.[0-9]+(?:v[0-9]+)?` at the head of the list,
exactly as the regex engine matches it after the literal URL lead. -/
def capFrom (r : List Char) : Option (List Char) :=
  let d1 := r.takeWhile Char.isDigit
  let r1 := r.dropWhile Char.isDigit
  if d1 = [] then none
  else
    match r1 with
    | c :: r2 =>
      if c = '.' then
        let d2 := r2.takeWhile Char.isDigit
        let r3 := r2.dropWhile Char.isDigit
        if d2 = [] then none else some (d1 ++ '.' :: (d2 ++ vPart r3))
      else none
    | [] => none

/-- Attempt the URL pattern at this exact position. -/
def matchAt (s : List Char) : Option (List Char) :=
  match stripL absPre s with
  | some r => capFrom r
  | none =>
    match stripL pdfPre s with
    | some r => capFrom r
    | none => none

/-- Leftmost search of the URL pattern, as by `re.search`. -/
def urlSearch : List Char → Option (List Char)
  | [] => none
  | c :: t =>
    match matchAt (c :: t) with
    | some cap => some cap
    | none => urlSearch t

/-- Python `s.replace(".pdf", "")` (leftmost, non-overlapping). -/
def replaceDotPdf (l : List Char) : List Char :=
  match l with
  | [] => []
  | c :: t =>
    if c = '.' ∧ t.take 3 = ['p', 'd', 'f'] then replaceDotPdf (t.drop 3)
    else c :: replaceDotPdf t
termination_by l.length
decreasing_by
  · simp only [List.length_cons, List.length_drop]; omega
  · simp only [List.length_cons]; omega

/-- Python `'v' in s`. -/
def hasV : List Char → Bool
  | [] => false
  | c :: t => if c = 'v' then true else hasV t

/-- Python `s.split('v')[0]`: everything before the first `'v'`. -/
def beforeV : List Char → List Char
  | [] => []
  | c :: t => if c = 'v' then [] else c :: beforeV t

/-- Full match of `^[0-9]+\.[0-9]+v[0-9]+$` as by `re.match` with anchors. -/
def fullMatchIdV (s : List Char) : Bool :=
  let d1 := s.takeWhile Char.isDigit
  let r1 := s.dropWhile Char.isDigit
  if d1 = [] then false
  else
    match r1 with
    | c :: r2 =>
      if c = '.' then
        let d2 := r2.takeWhile Char.isDigit
        let r3 := r2.dropWhile Char.isDigit
        if d2 = [] then false
        else
          match r3 with
          | e :: r4 => if e = 'v' then !r4.isEmpty && allDigits r4 else false
          | [] => false
      else false
    | [] => false

/-- The URL-extraction stage of `normalize_arxiv_id`. -/
def normURL (s : List Char) : List Char :=
  if startsWithL httpPre s || startsWithL httpsPre s then
    match urlSearch s with
    | some cap => replaceDotPdf cap
    | none => s
  else s

/-- Both stages of `normalize_arxiv_id` on the character list. -/
def normList (s : List Char) : List Char :=
  if hasV (normURL s) && fullMatchIdV (normURL s) then beforeV (normURL s) else normURL s

/-- `ArxivClient.normalize_arxiv_id`. -/
def normalize_arxiv_id (s : String) : String := ⟨normList s.data⟩

/-! ### Category taxonomy (`ARXIV_CATEGORIES`, `ArxivClient.get_categories`) -/

/-- The static arXiv category table from `arxiv_client.py`. -/
def ARXIV_CATEGORIES : List (String × String) := [
  ("cs.AI", "Artificial Intelligence"),
  ("cs.AR", "Hardware Architecture"),
  ("cs.CC", "Computational Complexity"),
  ("cs.CE", "Computational Engineering, Finance, and Science"),
  ("cs.CG", "Computational Geometry"),
  ("cs.CL", "Computation and Language"),
  ("cs.CR", "Cryptography and Security"),
  ("cs.CV", "Computer Vision and Pattern Recognition"),
  ("cs.CY", "Computers and Society"),
  ("cs.DB", "Databases"),
  ("cs.DC", "Distributed, Parallel, and Cluster Computing"),
  ("cs.DL", "Digital Libraries"),
  ("cs.DM", "Discrete Mathematics"),
  ("cs.DS", "Data Structures and Algorithms"),
  ("cs.ET", "Emerging Technologies"),
  ("cs.FL", "Formal Languages and Automata Theory"),
  ("cs.GL", "General Literature"),
  ("cs.GR", "Graphics"),
  ("cs.GT", "Computer Science and Game Theory"),
  ("cs.HC", "Human-Computer Interaction"),
  ("cs.IR", "Information Retrieval"),
  ("cs.IT", "Information Theory"),
  ("cs.LG", "Machine Learning"),
  ("cs.LO", "Logic in Computer Science"),
  ("cs.MA", "Multiagent Systems"),
  ("cs.MM", "Multimedia"),
  ("cs.MS", "Mathematical Software"),
  ("cs.NA", "Numerical Analysis"),
  ("cs.NE", "Neural and Evolutionary Computing"),
  ("cs.NI", "Networking and Internet Architecture"),
  ("cs.OH", "Other Computer Science"),
  ("cs.OS", "Operating Systems"),
  ("cs.PF", "Performance"),
  ("cs.PL", "Programming Languages"),
  ("cs.RO", "Robotics"),
  ("cs.SC", "Symbolic Computation"),
  ("cs.SD", "Sound"),
  ("cs.SE", "Software Engineering"),
  ("cs.SI", "Social and Information Networks"),
  ("cs.SY", "Systems and Control"),
  ("econ.EM", "Econometrics"),
  ("eess.AS", "Audio and Speech Processing"),
  ("eess.IV", "Image and Video Processing"),
  ("eess.SP", "Signal Processing"),
  ("math.AC", "Commutative Algebra"),
  ("math.AG", "Algebraic Geometry"),
  ("math.AP", "Analysis of PDEs"),
  ("math.AT", "Algebraic Topology"),
  ("math.CA", "Classical Analysis and ODEs"),
  ("math.CO", "Combinatorics"),
  ("math.CT", "Category Theory"),
  ("math.CV", "Complex Variables"),
  ("math.DG", "Differential Geometry"),
  ("math.DS", "Dynamical Systems"),
  ("math.FA", "Functional Analysis"),
  ("math.GM", "General Mathematics"),
  ("math.GN", "General Topology"),
  ("math.GR", "Group Theory"),
  ("math.GT", "Geometric Topology"),
  ("math.HO", "History and Overview"),
  ("math.IT", "Information Theory"),
  ("math.KT", "K-Theory and Homology"),
  ("math.LO", "Logic"),
  ("math.MG", "Metric Geometry"),
  ("math.MP", "Mathematical Physics"),
  ("math.NA", "Numerical Analysis"),
  ("math.NT", "Number Theory"),
  ("math.OA", "Operator Algebras"),
  ("math.OC", "Optimization and Control"),
  ("math.PR", "Probability"),
  ("math.QA", "Quantum Algebra"),
  ("math.RA", "Rings and Algebras"),
  ("math.RT", "Representation Theory"),
  ("math.SG", "Symplectic Geometry"),
  ("math.SP", "Spectral Theory"),
  ("math.ST", "Statistics Theory"),
  ("astro-ph.CO", "Cosmology and Nongalactic Astrophysics"),
  ("astro-ph.EP", "Earth and Planetary Astrophysics"),
  ("astro-ph.GA", "Astrophysics of Galaxies"),
  ("astro-ph.HE", "High Energy Astrophysical Phenomena"),
  ("astro-ph.IM", "Instrumentation and Methods for Astrophysics"),
  ("astro-ph.SR", "Solar and Stellar Astrophysics"),
  ("cond-mat.dis-nn", "Disordered Systems and Neural Networks"),
  ("cond-mat.mes-hall", "Mesoscale and Nanoscale Physics"),
  ("cond-mat.mtrl-sci", "Materials Science"),
  ("cond-mat.other", "Other Condensed Matter"),
  ("cond-mat.quant-gas", "Quantum Gases"),
  ("cond-mat.soft", "Soft Condensed Matter"),
  ("cond-mat.stat-mech", "Statistical Mechanics"),
  ("cond-mat.str-el", "Strongly Correlated Electrons"),
  ("cond-mat.supr-con", "Superconductivity"),
  ("gr-qc", "General Relativity and Quantum Cosmology"),
  ("hep-ex", "High Energy Physics - Experiment"),
  ("hep-lat", "High Energy Physics - Lattice"),
  ("hep-ph", "High Energy Physics - Phenomenology"),
  ("hep-th", "High Energy Physics - Theory"),
  ("math-ph", "Mathematical Physics"),
  ("nlin.AO", "Adaptation and Self-Organizing Systems"),
  ("nlin.CD", "Chaotic Dynamics"),
  ("nlin.CG", "Cellular Automata and Lattice Gases"),
  ("nlin.PS", "Pattern Formation and Solitons"),
  ("nlin.SI", "Exactly Solvable and Integrable Systems"),
  ("nucl-ex", "Nuclear Experiment"),
  ("nucl-th", "Nuclear Theory"),
  ("physics.acc-ph", "Accelerator Physics"),
  ("physics.ao-ph", "Atmospheric and Oceanic Physics"),
  ("physics.app-ph", "Applied Physics"),
  ("physics.atm-clus", "Atomic and Molecular Clusters"),
  ("physics.atom-ph", "Atomic Physics"),
  ("physics.bio-ph", "Biological Physics"),
  ("physics.chem-ph", "Chemical Physics"),
  ("physics.class-ph", "Classical Physics"),
  ("physics.comp-ph", "Computational Physics"),
  ("physics.data-an", "Data Analysis, Statistics and Probability"),
  ("physics.ed-ph", "Physics Education"),
  ("physics.flu-dyn", "Fluid Dynamics"),
  ("physics.gen-ph", "General Physics"),
  ("physics.geo-ph", "Geophysics"),
  ("physics.hist-ph", "History and Philosophy of Physics"),
  ("physics.ins-det", "Instrumentation and Detectors"),
  ("physics.med-ph", "Medical Physics"),
  ("physics.optics", "Optics"),
  ("physics.plasm-ph", "Plasma Physics"),
  ("physics.pop-ph", "Popular Physics"),
  ("physics.soc-ph", "Physics and Society"),
  ("physics.space-ph", "Space Physics"),
  ("q-bio.BM", "Biomolecules"),
  ("q-bio.CB", "Cell Behavior"),
  ("q-bio.GN", "Genomics"),
  ("q-bio.MN", "Molecular Networks"),
  ("q-bio.NC", "Neurons and Cognition"),
  ("q-bio.OT", "Other Quantitative Biology"),
  ("q-bio.PE", "Populations and Evolution"),
  ("q-bio.QM", "Quantitative Methods"),
  ("q-bio.SC", "Subcellular Processes"),
  ("q-bio.TO", "Tissues and Organs"),
  ("q-fin.CP", "Computational Finance"),
  ("q-fin.EC", "Economics"),
  ("q-fin.GN", "General Finance"),
  ("q-fin.MF", "Mathematical Finance"),
  ("q-fin.PM", "Portfolio Management"),
  ("q-fin.PR", "Pricing of Securities"),
  ("q-fin.RM", "Risk Management"),
  ("q-fin.ST", "Statistical Finance"),
  ("q-fin.TR", "Trading and Market Microstructure"),
  ("quant-ph", "Quantum Physics"),
  ("stat.AP", "Applications"),
  ("stat.CO", "Computation"),
  ("stat.ME", "Methodology"),
  ("stat.ML", "Machine Learning"),
  ("stat.OT", "Other Statistics"),
  ("stat.TH", "Statistics Theory")]

/-- ASCII lowercase of one character, as Python `str.lower()` acts on the
characters appearing in category codes. -/
def pyLowerChar (c : Char) : Char :=
  if 'A' ≤ c ∧ c ≤ 'Z' then Char.ofNat (c.toNat + 32) else c

/-- Python `str.lower()`. -/
def pyLower (s : String) : String := ⟨s.data.map pyLowerChar⟩

/-- Python `code.split('.')[0]`: the major category of a code. -/
def majorOf (s : String) : String := ⟨s.data.takeWhile (fun c => c != '.')⟩

/-- `ARXIV_MAJOR_CATEGORIES` (set membership is all that is ever used). -/
def ARXIV_MAJOR_CATEGORIES : List String := ARXIV_CATEGORIES.map (fun p => majorOf p.1)

/-- `ArxivClient.get_categories`.  The returned association list models the
Python dict (keys are unique in the table). -/
def get_categories (major_category : Option String) : List (String × String) :=
  match major_category with
  | some f =>
    if f = "" then ARXIV_CATEGORIES
    else
      if ARXIV_MAJOR_CATEGORIES.contains (pyLower f) then
        ARXIV_CATEGORIES.filter (fun p => startsWithL (pyLower f).data (pyLower p.1).data)
      else []
  | none => ARXIV_CATEGORIES

/-! ### Data model (`models.py`) -/

/-- `AISummary` from `models.py` (opaque pass-through data). -/
structure AISummary where
  model_version : String
  generated_at : Int
  summary : String
  key_contributions : List String
  methodology : String
  experiments : String
  related_research : List String
  limitations : List String
  tags : List String
deriving DecidableEq

/-- `ArxivPaper` from `models.py`.  The optional numeric relevance score is
pass-through data that no claim computes with; it is modelled as `Rat`. -/
structure ArxivPaper where
  arxiv_id : String
  title : String
  authors : List String
  abstract : String
  categories : List String
  published_date : String
  comment : Option String
  ai_summary : Option AISummary
  score : Option Rat
  pdf_url : Option String
deriving DecidableEq

/-- Construction of an `ArxivPaper`, including the pydantic validator
`_populate_pdf_url`: a falsy `pdf_url` is derived from a truthy `arxiv_id`. -/
def mkArxivPaper (arxiv_id title : String) (authors : List String) (abstract : String)
    (categories : List String) (published_date : String) (comment : Option String)
    (ai_summary : Option AISummary) (score : Option Rat) (pdf_url : Option String) :
    ArxivPaper :=
  { arxiv_id := arxiv_id, title := title, authors := authors, abstract := abstract,
    categories := categories, published_date := published_date, comment := comment,
    ai_summary := ai_summary, score := score,
    pdf_url :=
      if truthy pdf_url then pdf_url
      else if arxiv_id = "" then none
      else some ("https://arxiv.org/pdf/" ++ arxiv_id) }

/-! ### Timestamp conversion (`ArxivClient._parse_datetime`)

`datetime.strptime(s, "%Y-%m-%dT%H:%M:%SZ")` followed by
`strftime("%Y-%m-%d")`.  The strptime directives match: `%Y` exactly four
digits; `%m`, `%d`, `%H`, `%M`, `%S` one or two digits within their ranges
(two digits are preferred; when a two-digit read fails, the one-digit read
is followed by a separator check, which is equivalent to backtracking
because the second digit can never equal the separator).  The `datetime`
constructor then validates the day against the month length and rejects
leap seconds; any failure raises, modelled by `none`. -/

def parse4d : List Char → Option (Nat × List Char)
  | c1 :: c2 :: c3 :: c4 :: r =>
    if c1.isDigit && c2.isDigit && c3.isDigit && c4.isDigit then
      some (((digitVal c1 * 10 + digitVal c2) * 10 + digitVal c3) * 10 + digitVal c4, r)
    else none
  | _ => none

def expectC (c : Char) : List Char → Option (List Char)
  | d :: r => if d = c then some r else none
  | [] => none

def p2or1 (validTwo : Nat → Bool) (validOne : Nat → Bool) : List Char → Option (Nat × List Char)
  | c1 :: c2 :: r =>
    if c1.isDigit && c2.isDigit && validTwo (digitVal c1 * 10 + digitVal c2) then
      some (digitVal c1 * 10 + digitVal c2, r)
    else if c1.isDigit && validOne (digitVal c1) then
      some (digitVal c1, c2 :: r)
    else none
  | [c1] => if c1.isDigit && validOne (digitVal c1) then some (digitVal c1, []) else none
  | [] => none

def isLeap (y : Nat) : Bool := y % 4 == 0 && (y % 100 != 0 || y % 400 == 0)

def daysInMonth (y m : Nat) : Nat :=
  if m = 2 then (if isLeap y then 29 else 28)
  else if m = 4 ∨ m = 6 ∨ m = 9 ∨ m = 11 then 30
  else 31

def pad2 (n : Nat) : String := if n < 10 then "0" ++ toString n else toString n

def pad4 (n : Nat) : String :=
  if n < 10 then "000" ++ toString n
  else if n < 100 then "00" ++ toString n
  else if n < 1000 then "0" ++ toString n
  else toString n

/-- `ArxivClient._parse_datetime`: `none` models the raised `ValueError`. -/
def parse_datetime (s : String) : Option String := do
  let (y, r) ← parse4d s.data
  let r ← expectC '-' r
  let (mo, r) ← p2or1 (fun v => decide (1 ≤ v) && decide (v ≤ 12))
      (fun v => decide (1 ≤ v) && decide (v ≤ 9)) r
  let r ← expectC '-' r
  let (d, r) ← p2or1 (fun v => decide (1 ≤ v) && decide (v ≤ 31))
      (fun v => decide (1 ≤ v) && decide (v ≤ 9)) r
  let r ← expectC 'T' r
  let (h, r) ← p2or1 (fun v => decide (v ≤ 23)) (fun _ => true) r
  let r ← expectC ':' r
  let (mi, r) ← p2or1 (fun v => decide (v ≤ 59)) (fun _ => true) r
  let r ← expectC ':' r
  let (sec, r) ← p2or1 (fun v => decide (v ≤ 61)) (fun _ => true) r
  let r ← expectC 'Z' r
  if r = [] ∧ 1 ≤ y ∧ d ≤ daysInMonth y mo ∧ sec ≤ 59 ∧ h ≤ 23 ∧ mi ≤ 59 then
    some (pad4 y ++ "-" ++ pad2 mo ++ "-" ++ pad2 d)
  else none

/-! ### XML response parsing (`ArxivClient._parse_entry`, `_parse_response`)

An Atom `<entry>` element is modelled by the texts the parser extracts
from it: the optional text of each required child, the optional name text
of each `<author>` child, the optional `term` attribute of each
`<category>` child, and the optional comment text. -/

structure Entry where
  idTxt : Option String
  titleTxt : Option String
  summaryTxt : Option String
  publishedTxt : Option String
  authorNames : List (Option String)
  categoryTerms : List (Option String)
  commentTxt : Option String
deriving DecidableEq

/-- An Atom document, reduced to what `_parse_response` reads from it. -/
structure AtomDoc where
  totalResults : Option String
  entries : List Entry

/-- Python `s.split('/')[-1]`: the part after the last slash. -/
def afterLastSlash (l : List Char) : List Char :=
  (l.reverse.takeWhile (fun c => c != '/')).reverse

/-- The truthiness check over the four required fields of an entry. -/
def requiredOk (e : Entry) : Bool :=
  truthy e.idTxt && truthy e.titleTxt && truthy e.summaryTxt && truthy e.publishedTxt

/-- The author-name extraction: names that are present and non-empty. -/
def extractAuthors (e : Entry) : List String :=
  e.authorNames.filterMap (fun n =>
    match n with
    | some s => if s = "" then none else some s
    | none => none)

/-- The category-term extraction: terms that are present (empty allowed). -/
def extractCats (e : Entry) : List String := e.categoryTerms.filterMap (fun t => t)

/-- `ArxivClient._parse_entry`: `ok none` models the skip paths, `error`
models an exception escaping the method (only `_parse_datetime` raises). -/
def parse_entry (e : Entry) : Except Unit (Option ArxivPaper) :=
  if requiredOk e then
    if extractAuthors e = [] then Except.ok none
    else if extractCats e = [] then Except.ok none
    else
      match parse_datetime (orEmpty e.publishedTxt) with
      | none => Except.error ()
      | some pd =>
        Except.ok (some (mkArxivPaper
          ⟨beforeV (afterLastSlash (orEmpty e.idTxt).data)⟩
          (pyStrip (orEmpty e.titleTxt))
          (extractAuthors e)
          (pyStrip (orEmpty e.summaryTxt))
          (extractCats e)
          pd
          e.commentTxt
          none none none))
  else Except.ok none

/-- The per-entry loop of `_parse_response`: any entry whose parse raises
is caught and skipped, and a `None` result is not appended. -/
def collectEntries : List Entry → List ArxivPaper
  | [] => []
  | e :: t =>
    match parse_entry e with
    | Except.ok (some p) => p :: collectEntries t
    | _ => collectEntries t

/-- `ArxivClient._parse_response`: `int()` of the total-results text can
raise at document level (fatal); entry failures are caught in the loop. -/
def parse_response (doc : AtomDoc) : Except Unit (List ArxivPaper) :=
  match pyIntOfOpt doc.totalResults with
  | none => Except.error ()
  | some _ => Except.ok (collectEntries doc.entries)

/-- The combined skip predicate of the claim about entry tolerance. -/
def badEntry (e : Entry) : Bool :=
  !requiredOk e || (extractAuthors e).isEmpty || (extractCats e).isEmpty

/-! ### Search orchestration (`server.search_keyword`, semantic client) -/

/-- The validation failures the two operations can raise (`ValueError`). -/
inductive VErr where
  | pageSizeRange
  | negativeStart
  | missingCriteria
  | emptyQuery
  | pageTooSmall
  | dateOrder
deriving DecidableEq

/-- Caller arguments of the `search_keyword` tool. -/
structure KwArgs where
  page : Int
  page_size : Int
  sort_by : String
  sort_order : String
  title : Option String
  author : Option String
  abstract : Option String
  category : Option String
  start_date : Option String
  end_date : Option String
  all_fields : Option String
deriving DecidableEq

/-- The GET request `ArxivClient.search` would issue after validation. -/
structure ArxivReq where
  search_query : String
  start : Int
  max_results : Int
  sortBy : String
  sortOrder : String
deriving DecidableEq

/-- The clause list built by `search_keyword`, in source order. -/
def kwClauses (a : KwArgs) : List String :=
  (if truthy a.title then ["ti:\"" ++ orEmpty a.title ++ "\""] else []) ++
  (if truthy a.author then ["au:\"" ++ orEmpty a.author ++ "\""] else []) ++
  (if truthy a.abstract then ["abs:\"" ++ orEmpty a.abstract ++ "\""] else []) ++
  (if truthy a.category then ["cat:" ++ orEmpty a.category] else []) ++
  (if truthy a.all_fields then ["all:" ++ orEmpty a.all_fields] else []) ++
  (if truthy a.start_date && truthy a.end_date then
    ["submittedDate:[" ++ removeDashes (orEmpty a.start_date) ++ "0000 TO " ++
      removeDashes (orEmpty a.end_date) ++ "2359]"]
  else [])

/-- `server.search_keyword` up to the point the GET request is issued,
inlining the validation of `ArxivClient.search`.  The date-range branch is
total: `str.replace` never raises, so the dead `except` handler of the
source is unreachable and no date validation happens. -/
def search_keyword (a : KwArgs) : Except VErr ArxivReq :=
  let qp := kwClauses a
  if qp = [] then Except.error VErr.missingCriteria
  else
    let query := String.intercalate (" AND ") qp
    let start : Int := (a.page - 1) * a.page_size
    if a.page_size > 15 || a.page_size < 1 then Except.error VErr.pageSizeRange
    else if start < 0 then Except.error VErr.negativeStart
    else Except.ok ⟨query, start, a.page_size, a.sort_by, a.sort_order⟩

/-- Caller arguments of the semantic search operation. -/
structure SemArgs where
  query : String
  page : Int
  page_size : Int
  use_rewrite : Bool
  categories : Option (List String)
  start_time : Option String
  end_time : Option String
deriving DecidableEq

/-- The POST body `SemanticSearchClient.search` would send (fields that are
`none` are omitted from the JSON, modelled by the `Option` type). -/
structure SemPayload where
  query : String
  page : Int
  page_size : Int
  search_by_paper : Bool
  use_rewrite : Bool
  categories : Option (List String)
  start_time : Option String
  end_time : Option String
deriving DecidableEq

/-- Lexicographic strict order on code points, as Python compares strings. -/
def pyLt : List Char → List Char → Bool
  | [], [] => false
  | [], _ :: _ => true
  | _ :: _, [] => false
  | c :: cs, d :: ds => if c < d then true else if d < c then false else pyLt cs ds

/-- Python string comparison `a > b` (lexicographic on code points). -/
def pyStrGt (a b : String) : Bool := pyLt b.data a.data

/-- `SemanticSearchClient.search` up to the point the POST is issued. -/
def semantic_search (a : SemArgs) : Except VErr SemPayload :=
  if pyStrip a.query = "" then Except.error VErr.emptyQuery
  else if a.page < 1 then Except.error VErr.pageTooSmall
  else if a.page_size < 1 || a.page_size > 15 then Except.error VErr.pageSizeRange
  else if truthy a.start_time && truthy a.end_time &&
      pyStrGt (orEmpty a.start_time) (orEmpty a.end_time) then
    Except.error VErr.dateOrder
  else
    Except.ok ⟨a.query, a.page, a.page_size, false, a.use_rewrite,
      a.categories, a.start_time, a.end_time⟩

/-! ### Concrete inputs used by the claims -/

/-- A `KwArgs` value with no field set (defaults of the tool). -/
def kwDefault : KwArgs :=
  ⟨1, 10, "submittedDate", "descending", none, none, none, none, none, none, none⟩

/-- Only `category="cs.AI"`. -/
def kwCatOnly : KwArgs := { kwDefault with category := some ("cs.AI") }

/-- `title="a"` with the date range `2023-01-01 .. 2023-01-31`. -/
def kwTitleRange : KwArgs :=
  { kwDefault with
    title := some ("a")
    start_date := some ("2023-01-01")
    end_date := some ("2023-01-31") }

/-- All search fields absent, only the date range set. -/
def kwDatesOnly : KwArgs :=
  { kwDefault with start_date := some ("2023-01-01"), end_date := some ("2023-01-31") }

/-- All search fields absent, date range set, and `page_size = 0`. -/
def kwDatesOnlyBadSize : KwArgs := { kwDatesOnly with page_size := 0 }

/-- `category="cs.AI"` with `page_size = 15`. -/
def kwCatSize15 : KwArgs := { kwCatOnly with page_size := 15 }

/-- Malformed dates (slashes instead of dashes) with `title="a"`. -/
def kwBadDates : KwArgs :=
  { kwDefault with
    title := some ("a")
    start_date := some ("2023/01/01")
    end_date := some ("2023/01/31") }

/-- A valid semantic call with `page_size = 15`. -/
def semSize15 : SemArgs := ⟨"quantum computing", 1, 15, false, none, none, none⟩

/-- No field set and `page_size = 0`. -/
def kwEmptyBadSize : KwArgs := { kwDefault with page_size := 0 }

/-- `category="cs.AI"` with `page_size = 16`. -/
def kwCat16 : KwArgs := { kwCatOnly with page_size := 16 }

/-- A semantic call whose start date is later than its end date. -/
def semBadOrder : SemArgs :=
  { semSize15 with
    start_time := some ("2024-01-01")
    end_time := some ("2023-01-01") }

/-- A complete, well-formed entry. -/
def entA : Entry :=
  { idTxt := some ("http://arxiv.org/abs/2301.00001v1"),
    titleTxt := some (" Paper A "),
    summaryTxt := some (" Abstract A "),
    publishedTxt := some ("2023-01-05T12:00:00Z"),
    authorNames := [some ("Alice"), some ("Bob")],
    categoryTerms := [some ("cs.AI"), some ("cs.LG")],
    commentTxt := some ("10 pages") }

/-- A well-formed entry except that it has no authors. -/
def entB : Entry :=
  { idTxt := some ("http://arxiv.org/abs/2301.00002v1"),
    titleTxt := some ("Paper B"),
    summaryTxt := some ("Abstract B"),
    publishedTxt := some ("2023-01-06T00:00:00Z"),
    authorNames := [],
    categoryTerms := [some ("cs.AI")],
    commentTxt := none }

/-- A second complete, well-formed entry. -/
def entC : Entry :=
  { idTxt := some ("http://arxiv.org/abs/2301.00003v2"),
    titleTxt := some ("Paper C"),
    summaryTxt := some ("Abstract C"),
    publishedTxt := some ("2023-02-10T08:30:00Z"),
    authorNames := [some ("Carol")],
    categoryTerms := [some ("math.CO")],
    commentTxt := none }

/-- The record produced for `entA`. -/
def papA : ArxivPaper :=
  { arxiv_id := "2301.00001", title := "Paper A", authors := ["Alice", "Bob"],
    abstract := "Abstract A", categories := ["cs.AI", "cs.LG"],
    published_date := "2023-01-05", comment := some ("10 pages"), ai_summary := none,
    score := none, pdf_url := some ("https://arxiv.org/pdf/2301.00001") }

/-- The record produced for `entC`. -/
def papC : ArxivPaper :=
  { arxiv_id := "2301.00003", title := "Paper C", authors := ["Carol"],
    abstract := "Abstract C", categories := ["math.CO"],
    published_date := "2023-02-10", comment := none, ai_summary := none,
    score := none, pdf_url := some ("https://arxiv.org/pdf/2301.00003") }

/-- The three-entry batch: one entry lacks authors. -/
def doc3 : AtomDoc := ⟨some ("3"), [entA, entB, entC]⟩

/-- An entry that is complete but whose published timestamp is malformed
(date only, no time part). -/
def entBadTs : Entry :=
  { idTxt := some ("http://arxiv.org/abs/2301.00004v1"),
    titleTxt := some ("Paper D"),
    summaryTxt := some ("Abstract D"),
    publishedTxt := some ("2023-01-07"),
    authorNames := [some ("Dave")],
    categoryTerms := [some ("cs.AI")],
    commentTxt := none }

/-- A document whose single entry has a malformed timestamp. -/
def docBadTs : AtomDoc := ⟨some ("1"), [entBadTs]⟩

/-- An entry whose identifier has a final segment `nova` that contains a
`'v'` but no version suffix. -/
def entNova : Entry :=
  { idTxt := some ("http://arxiv.org/abs/nova"),
    titleTxt := some ("Paper N"),
    summaryTxt := some ("Abstract N"),
    publishedTxt := some ("2023-03-01T00:00:00Z"),
    authorNames := [some ("Nia")],
    categoryTerms := [some ("cs.AI")],
    commentTxt := none }

/-- The record produced for `entNova`: the identifier is truncated at the
first letter `v`, yielding `no`. -/
def papNova : ArxivPaper :=
  { arxiv_id := "no", title := "Paper N", authors := ["Nia"],
    abstract := "Abstract N", categories := ["cs.AI"],
    published_date := "2023-03-01", comment := none, ai_summary := none,
    score := none, pdf_url := some ("https://arxiv.org/pdf/no") }

/-! ### Generic helper lemmas -/

theorem takeWhile_of_all {p : Char → Bool} :
    ∀ l : List Char, (∀ x ∈ l, p x = true) → l.takeWhile p = l := by
  intro l h
  induction l with
  | nil => rfl
  | cons c t ih =>
    rw [List.takeWhile_cons_of_pos (h c (List.mem_cons_self c t))]
    rw [ih (fun x hx => h x (List.mem_cons_of_mem c hx))]

theorem dropWhile_of_all {p : Char → Bool} :
    ∀ l : List Char, (∀ x ∈ l, p x = true) → l.dropWhile p = [] := by
  intro l h
  induction l with
  | nil => rfl
  | cons c t ih =>
    rw [List.dropWhile_cons_of_pos (h c (List.mem_cons_self c t))]
    exact ih (fun x hx => h x (List.mem_cons_of_mem c hx))

theorem takeWhile_append_stop {p : Char → Bool} {c : Char} (hc : p c = false) :
    ∀ (a r : List Char), (∀ x ∈ a, p x = true) →
      (a ++ c :: r).takeWhile p = a := by
  intro a r h
  induction a with
  | nil => simp [List.takeWhile_cons, hc]
  | cons d t ih =>
    rw [List.cons_append, List.takeWhile_cons_of_pos (h d (List.mem_cons_self d t))]
    rw [ih (fun x hx => h x (List.mem_cons_of_mem d hx))]

theorem dropWhile_append_stop {p : Char → Bool} {c : Char} (hc : p c = false) :
    ∀ (a r : List Char), (∀ x ∈ a, p x = true) →
      (a ++ c :: r).dropWhile p = c :: r := by
  intro a r h
  induction a with
  | nil => simp [List.dropWhile_cons, hc]
  | cons d t ih =>
    rw [List.cons_append, List.dropWhile_cons_of_pos (h d (List.mem_cons_self d t))]
    exact ih (fun x hx => h x (List.mem_cons_of_mem d hx))

theorem allDigits_mem {l : List Char} (h : allDigits l = true) :
    ∀ x ∈ l, x.isDigit = true := by
  intro x hx
  exact List.all_eq_true.mp h x hx

theorem digit_ne {c d : Char} (hc : c.isDigit = true) (hd : d.isDigit = false) : c ≠ d := by
  intro e
  rw [e, hd] at hc
  exact Bool.noConfusion hc

theorem hasV_append (a b : List Char) : hasV (a ++ b) = (hasV a || hasV b) := by
  induction a with
  | nil => simp [hasV]
  | cons c t ih =>
    by_cases h : c = 'v'
    · simp [hasV, h]
    · simp [hasV, h, ih]

theorem hasV_eq_false {l : List Char} (h : ∀ x ∈ l, x ≠ 'v') : hasV l = false := by
  induction l with
  | nil => rfl
  | cons c t ih =>
    rw [hasV, if_neg (h c (List.mem_cons_self c t))]
    exact ih (fun x hx => h x (List.mem_cons_of_mem c hx))

theorem beforeV_of_noV {l : List Char} (h : ∀ x ∈ l, x ≠ 'v') : beforeV l = l := by
  induction l with
  | nil => rfl
  | cons c t ih =>
    rw [beforeV, if_neg (h c (List.mem_cons_self c t))]
    rw [ih (fun x hx => h x (List.mem_cons_of_mem c hx))]

theorem beforeV_append_v {l : List Char} (r : List Char) (h : ∀ x ∈ l, x ≠ 'v') :
    beforeV (l ++ 'v' :: r) = l := by
  induction l with
  | nil => simp [beforeV]
  | cons c t ih =>
    rw [List.cons_append, beforeV, if_neg (h c (List.mem_cons_self c t))]
    rw [ih (fun x hx => h x (List.mem_cons_of_mem c hx))]

theorem replaceDotPdf_of_noP {l : List Char} (h : ∀ x ∈ l, x ≠ 'p') :
    replaceDotPdf l = l := by
  induction l with
  | nil => rw [replaceDotPdf]
  | cons c t ih =>
    rw [replaceDotPdf]
    rw [if_neg]
    · rw [ih (fun x hx => h x (List.mem_cons_of_mem c hx))]
    · rintro ⟨_, ht⟩
      have : 'p' ∈ t := by
        have : 'p' ∈ t.take 3 := by rw [ht]; exact List.mem_cons_self _ _
        exact List.take_subset 3 t this
      exact h 'p' (List.mem_cons_of_mem c this) rfl

theorem startsWithL_cons_ne {p c : Char} {ps cs : List Char} (h : p ≠ c) :
    startsWithL (p :: ps) (c :: cs) = false := by
  rw [startsWithL, if_neg h]

theorem stripL_append_self : ∀ (p s : List Char), stripL p (p ++ s) = some s := by
  intro p s
  induction p with
  | nil => rfl
  | cons c t ih => rw [List.cons_append, stripL, if_pos rfl]; exact ih

theorem matchAt_abs (r : List Char) : matchAt (absPre ++ r) = capFrom r := by
  rw [matchAt, stripL_append_self]

theorem matchAt_pdf (r : List Char) : matchAt (pdfPre ++ r) = capFrom r := by
  have h1 : stripL absPre (pdfPre ++ r) = none := rfl
  rw [matchAt, h1, stripL_append_self]

theorem matchAt_head_ne {c : Char} (t : List Char) (h : c ≠ 'a') :
    matchAt (c :: t) = none := by
  have h1 : stripL absPre (c :: t) = none := by
    rw [absPre, stripL, if_neg (fun e => h e.symm)]
  have h2 : stripL pdfPre (c :: t) = none := by
    rw [pdfPre, stripL, if_neg (fun e => h e.symm)]
  rw [matchAt, h1, h2]

theorem urlSearch_cons_none {c : Char} {t : List Char} (h : matchAt (c :: t) = none) :
    urlSearch (c :: t) = urlSearch t := by
  rw [urlSearch, h]

theorem urlSearch_of_matchAt {s : List Char} {cap : List Char}
    (h : matchAt s = some cap) : urlSearch s = some cap := by
  cases s with
  | nil => exact absurd h (by rw [matchAt]; exact fun e => Option.noConfusion e)
  | cons c t => rw [urlSearch, h]

theorem urlSearch_skip_no_a : ∀ (l : List Char), (∀ c ∈ l, c ≠ 'a') →
    ∀ s, urlSearch (l ++ s) = urlSearch s := by
  intro l h s
  induction l with
  | nil => rfl
  | cons c t ih =>
    rw [List.cons_append,
      urlSearch_cons_none (matchAt_head_ne (t ++ s) (h c (List.mem_cons_self c t)))]
    exact ih (fun x hx => h x (List.mem_cons_of_mem c hx))

theorem mem_parts {a b V : List Char} {x : Char} (hx : x ∈ a ++ '.' :: (b ++ V)) :
    x ∈ a ∨ x = '.' ∨ x ∈ b ∨ x ∈ V := by
  rcases List.mem_append.mp hx with h | h
  · exact Or.inl h
  · rcases List.mem_cons.mp h with e | h
    · exact Or.inr (Or.inl e)
    · rcases List.mem_append.mp h with h | h
      · exact Or.inr (Or.inr (Or.inl h))
      · exact Or.inr (Or.inr (Or.inr h))

theorem vPart_nil : vPart [] = [] := rfl

theorem vPart_not_v {c : Char} (r : List Char) (h : c ≠ 'v') : vPart (c :: r) = [] := by
  simp only [vPart, if_neg h]

theorem vPart_v {n : List Char} (hn : allDigits n = true) (hn0 : n ≠ []) :
    vPart ('v' :: n) = 'v' :: n := by
  simp only [vPart, if_pos rfl]
  rw [takeWhile_of_all n (allDigits_mem hn), if_neg hn0]
  exact if_pos trivial

theorem vPart_v_stop {n : List Char} {c : Char} (r : List Char)
    (hn : allDigits n = true) (hn0 : n ≠ []) (hc : c.isDigit = false) :
    vPart ('v' :: (n ++ c :: r)) = 'v' :: n := by
  simp only [vPart, if_pos rfl]
  rw [takeWhile_append_stop hc n r (allDigits_mem hn), if_neg hn0]
  exact if_pos trivial

theorem capFrom_calc {a b : List Char} (V : List Char)
    (ha : allDigits a = true) (hb : allDigits b = true) (ha0 : a ≠ []) (hb0 : b ≠ [])
    (hV : V = [] ∨ ∃ c r, V = c :: r ∧ c.isDigit = false) :
    capFrom (a ++ '.' :: (b ++ V)) = some (a ++ '.' :: (b ++ vPart V)) := by
  have hda := allDigits_mem ha
  have hdb := allDigits_mem hb
  have h1 : (a ++ '.' :: (b ++ V)).takeWhile Char.isDigit = a :=
    takeWhile_append_stop (by decide) a (b ++ V) hda
  have h2 : (a ++ '.' :: (b ++ V)).dropWhile Char.isDigit = '.' :: (b ++ V) :=
    dropWhile_append_stop (by decide) a (b ++ V) hda
  have h3 : (b ++ V).takeWhile Char.isDigit = b := by
    rcases hV with rfl | ⟨c, r, rfl, hc⟩
    · rw [List.append_nil]; exact takeWhile_of_all b hdb
    · exact takeWhile_append_stop hc b r hdb
  have h4 : (b ++ V).dropWhile Char.isDigit = V := by
    rcases hV with rfl | ⟨c, r, rfl, hc⟩
    · rw [List.append_nil]; exact dropWhile_of_all b hdb
    · exact dropWhile_append_stop hc b r hdb
  simp only [capFrom, h1, h2, h3, h4]
  rw [if_neg ha0]
  rw [if_neg hb0]
  exact if_pos trivial

theorem fullMatch_v {a b n : List Char} (ha : allDigits a = true) (hb : allDigits b = true)
    (hn : allDigits n = true) (ha0 : a ≠ []) (hb0 : b ≠ []) (hn0 : n ≠ []) :
    fullMatchIdV (a ++ '.' :: (b ++ 'v' :: n)) = true := by
  have hda := allDigits_mem ha
  have hdb := allDigits_mem hb
  have h1 : (a ++ '.' :: (b ++ 'v' :: n)).takeWhile Char.isDigit = a :=
    takeWhile_append_stop (by decide) a (b ++ 'v' :: n) hda
  have h2 : (a ++ '.' :: (b ++ 'v' :: n)).dropWhile Char.isDigit = '.' :: (b ++ 'v' :: n) :=
    dropWhile_append_stop (by decide) a (b ++ 'v' :: n) hda
  have h3 : (b ++ 'v' :: n).takeWhile Char.isDigit = b :=
    takeWhile_append_stop (by decide) b n hdb
  have h4 : (b ++ 'v' :: n).dropWhile Char.isDigit = 'v' :: n :=
    dropWhile_append_stop (by decide) b n hdb
  have h5 : n.isEmpty = false := by simp [List.isEmpty_iff, hn0]
  simp only [fullMatchIdV, h1, h2, h3, h4]
  rw [if_neg ha0]
  simp [hb0, h5, hn]

theorem fullMatch_inv {s : List Char} (h : fullMatchIdV s = true) :
    ∃ a b n, s = a ++ '.' :: (b ++ 'v' :: n) ∧ allDigits a = true ∧ allDigits b = true ∧
      a ≠ [] ∧ b ≠ [] := by
  simp only [fullMatchIdV] at h
  split at h
  · exact absurd h (by simp)
  · rename_i h1
    split at h
    · rename_i c r2 heq
      split at h
      · rename_i hc
        subst hc
        split at h
        · exact absurd h (by simp)
        · rename_i h2
          split at h
          · rename_i e r4 heq2
            split at h
            · rename_i he
              subst he
              refine ⟨s.takeWhile Char.isDigit, r2.takeWhile Char.isDigit, r4, ?_, ?_, ?_, h1, h2⟩
              · have hs : s.takeWhile Char.isDigit ++ s.dropWhile Char.isDigit = s :=
                  List.takeWhile_append_dropWhile Char.isDigit s
                have hr2 : r2.takeWhile Char.isDigit ++ r2.dropWhile Char.isDigit = r2 :=
                  List.takeWhile_append_dropWhile Char.isDigit r2
                have h6 : r2 = r2.takeWhile Char.isDigit ++ 'v' :: r4 := by
                  conv_lhs => rw [← hr2]
                  rw [heq2]
                conv_lhs => rw [← hs]
                rw [heq]
                conv_lhs => rw [h6]
              · exact List.all_eq_true.mpr (fun x hx => List.mem_takeWhile_imp hx)
              · exact List.all_eq_true.mpr (fun x hx => List.mem_takeWhile_imp hx)
            · exact absurd h (by simp)
          · exact absurd h (by simp)
      · exact absurd h (by simp)
    · exact absurd h (by simp)

theorem capFrom_inv {r cap : List Char} (h : capFrom r = some cap) :
    ∃ d1 d2 r3, cap = d1 ++ '.' :: (d2 ++ vPart r3) ∧ allDigits d1 = true ∧
      allDigits d2 = true ∧ d1 ≠ [] ∧ d2 ≠ [] := by
  simp only [capFrom] at h
  split at h
  · exact absurd h (by simp)
  · rename_i h1
    split at h
    · rename_i c r2 heq
      split at h
      · rename_i hc
        split at h
        · exact absurd h (by simp)
        · rename_i h2
          injection h with hcap
          exact ⟨r.takeWhile Char.isDigit, r2.takeWhile Char.isDigit, r2.dropWhile Char.isDigit,
            hcap.symm,
            List.all_eq_true.mpr (fun x hx => List.mem_takeWhile_imp hx),
            List.all_eq_true.mpr (fun x hx => List.mem_takeWhile_imp hx), h1, h2⟩
      · exact absurd h (by simp)
    · exact absurd h (by simp)

theorem vPart_shape (r3 : List Char) :
    vPart r3 = [] ∨ ∃ n, vPart r3 = 'v' :: n ∧ allDigits n = true ∧ n ≠ [] := by
  cases r3 with
  | nil => exact Or.inl rfl
  | cons c r =>
    by_cases hc : c = 'v'
    · subst hc
      simp only [vPart, if_pos rfl]
      by_cases h0 : r.takeWhile Char.isDigit = []
      · rw [if_pos h0]; exact Or.inl rfl
      · rw [if_neg h0]
        exact Or.inr ⟨r.takeWhile Char.isDigit, rfl,
          List.all_eq_true.mpr (fun x hx => List.mem_takeWhile_imp hx), h0⟩
    · exact Or.inl (vPart_not_v r hc)

theorem matchAt_inv {s cap : List Char} (h : matchAt s = some cap) :
    ∃ r, capFrom r = some cap := by
  simp only [matchAt] at h
  split at h
  · exact ⟨_, h⟩
  · split at h
    · exact ⟨_, h⟩
    · exact absurd h (by simp)

theorem urlSearch_inv : ∀ {s cap : List Char}, urlSearch s = some cap →
    ∃ r, capFrom r = some cap := by
  intro s
  induction s with
  | nil => intro cap h; exact absurd h (by rw [urlSearch]; exact fun e => Option.noConfusion e)
  | cons c t ih =>
    intro cap h
    rw [urlSearch] at h
    split at h
    · rename_i cap' hm
      injection h with h'
      subst h'
      exact matchAt_inv hm
    · exact ih h

theorem urlSearch_shape {s cap : List Char} (h : urlSearch s = some cap) :
    ∃ d1 d2 V, cap = d1 ++ '.' :: (d2 ++ V) ∧ allDigits d1 = true ∧ allDigits d2 = true ∧
      d1 ≠ [] ∧ d2 ≠ [] ∧ (V = [] ∨ ∃ n, V = 'v' :: n ∧ allDigits n = true ∧ n ≠ []) := by
  obtain ⟨r, hr⟩ := urlSearch_inv h
  obtain ⟨d1, d2, r3, hcap, hd1, hd2, h1, h2⟩ := capFrom_inv hr
  exact ⟨d1, d2, vPart r3, hcap, hd1, hd2, h1, h2, vPart_shape r3⟩

theorem noV_dotted {a b : List Char} (ha : allDigits a = true) (hb : allDigits b = true) :
    ∀ x ∈ a ++ '.' :: b, x ≠ 'v' := by
  intro x hx
  rcases List.mem_append.mp hx with h | h
  · exact digit_ne (allDigits_mem ha x h) (by decide)
  · rcases List.mem_cons.mp h with e | h
    · subst e; decide
    · exact digit_ne (allDigits_mem hb x h) (by decide)

theorem noP_cap {d1 d2 V : List Char} (h1 : allDigits d1 = true) (h2 : allDigits d2 = true)
    (hV : V = [] ∨ ∃ n, V = 'v' :: n ∧ allDigits n = true ∧ n ≠ []) :
    ∀ x ∈ d1 ++ '.' :: (d2 ++ V), x ≠ 'p' := by
  intro x hx
  rcases mem_parts hx with h | h | h | h
  · exact digit_ne (allDigits_mem h1 x h) (by decide)
  · subst h; decide
  · exact digit_ne (allDigits_mem h2 x h) (by decide)
  · rcases hV with rfl | ⟨n, rfl, hn, hn0⟩
    · exact absurd h (List.not_mem_nil x)
    · rcases List.mem_cons.mp h with e | h
      · subst e; decide
      · exact digit_ne (allDigits_mem hn x h) (by decide)

theorem normURL_digit_head {c : Char} (t : List Char) (hc : c.isDigit = true) :
    normURL (c :: t) = c :: t := by
  have hch : 'h' ≠ c := Ne.symm (digit_ne hc (by decide))
  have hsw1 : startsWithL httpPre (c :: t) = false := by
    have e : httpPre = 'h' :: ['t', 't', 'p', ':', '/', '/'] := rfl
    rw [e]; exact startsWithL_cons_ne hch
  have hsw2 : startsWithL httpsPre (c :: t) = false := by
    have e : httpsPre = 'h' :: ['t', 't', 'p', 's', ':', '/', '/'] := rfl
    rw [e]; exact startsWithL_cons_ne hch
  simp [normURL, hsw1, hsw2]

theorem bare_fix {a b : List Char} (ha : allDigits a = true) (hb : allDigits b = true)
    (ha0 : a ≠ []) : normList (a ++ '.' :: b) = a ++ '.' :: b := by
  obtain ⟨c, a2, rfl⟩ : ∃ c a2, a = c :: a2 := by
    cases a with
    | nil => exact absurd rfl ha0
    | cons c a2 => exact ⟨c, a2, rfl⟩
  have hc : c.isDigit = true := allDigits_mem ha c (List.mem_cons_self c a2)
  have hurl : normURL ((c :: a2) ++ '.' :: b) = (c :: a2) ++ '.' :: b := by
    rw [List.cons_append]
    exact normURL_digit_head (a2 ++ '.' :: b) hc
  have hv : hasV ((c :: a2) ++ '.' :: b) = false := hasV_eq_false (noV_dotted ha hb)
  rw [List.cons_append] at hurl hv
  rw [List.cons_append]
  simp only [normList, hurl]
  rw [hv]
  simp

theorem normURL_fix (s : List Char) : normURL (normURL s) = normURL s := by
  rcases hu : urlSearch s with _ | cap
  · have hid : normURL s = s := by
      by_cases hsw : (startsWithL httpPre s || startsWithL httpsPre s) = true
      · simp [normURL, hsw, hu]
      · simp only [normURL]
        rw [if_neg hsw]
    rw [hid]
    exact hid
  · by_cases hsw : (startsWithL httpPre s || startsWithL httpsPre s) = true
    · obtain ⟨d1, d2, V, hcap, h1, h2, h10, h20, hV⟩ := urlSearch_shape hu
      subst hcap
      have hrp : replaceDotPdf (d1 ++ '.' :: (d2 ++ V)) = d1 ++ '.' :: (d2 ++ V) :=
        replaceDotPdf_of_noP (noP_cap h1 h2 hV)
      have hns : normURL s = d1 ++ '.' :: (d2 ++ V) := by
        simp [normURL, hsw, hu, hrp]
      rw [hns]
      obtain ⟨c, d12, rfl⟩ : ∃ c d12, d1 = c :: d12 := by
        cases d1 with
        | nil => exact absurd rfl h10
        | cons c d12 => exact ⟨c, d12, rfl⟩
      rw [List.cons_append]
      exact normURL_digit_head (d12 ++ '.' :: (d2 ++ V))
        (allDigits_mem h1 c (List.mem_cons_self c d12))
    · have hid : normURL s = s := by
        simp only [normURL]
        rw [if_neg hsw]
      rw [hid]
      exact hid

theorem normList_idem (s : List Char) : normList (normList s) = normList s := by
  cases hcond : (hasV (normURL s) && fullMatchIdV (normURL s)) with
  | false =>
    have hl : normList s = normURL s := by
      simp only [normList]
      rw [hcond]
      simp
    rw [hl]
    have h2 : normURL (normURL s) = normURL s := normURL_fix s
    simp only [normList, h2]
    rw [hcond]
    simp
  | true =>
    obtain ⟨hv, hfm⟩ : hasV (normURL s) = true ∧ fullMatchIdV (normURL s) = true := by
      simpa using hcond
    obtain ⟨a, b, n, hs1, ha, hb, ha0, hb0⟩ := fullMatch_inv hfm
    have hl : normList s = beforeV (normURL s) := by
      simp only [normList]
      rw [hcond]
      simp
    have h2 : beforeV (normURL s) = a ++ '.' :: b := by
      rw [hs1]
      have e : a ++ '.' :: (b ++ 'v' :: n) = (a ++ '.' :: b) ++ 'v' :: n := by
        simp [List.append_assoc]
      rw [e]
      exact beforeV_append_v n (noV_dotted ha hb)
    rw [hl, h2]
    exact bare_fix ha hb ha0

/-- Idempotence transported to `String`. -/
theorem normalize_arxiv_id_idem (x : String) :
    normalize_arxiv_id (normalize_arxiv_id x) = normalize_arxiv_id x := by
  show (⟨normList (String.data ⟨normList x.data⟩)⟩ : String) = ⟨normList x.data⟩
  exact congrArg String.mk (normList_idem x.data)

theorem startsWithL_append_self : ∀ (p s : List Char), startsWithL p (p ++ s) = true := by
  intro p s
  induction p with
  | nil => rfl
  | cons c t ih => rw [List.cons_append, startsWithL, if_pos rfl]; exact ih

theorem hasV_dotted_v {a b n : List Char} :
    hasV (a ++ '.' :: (b ++ 'v' :: n)) = true := by
  rw [hasV_append]
  have h1 : hasV ('v' :: n) = true := by simp [hasV]
  have h2 : hasV (b ++ 'v' :: n) = true := by rw [hasV_append, h1]; simp
  have h3 : hasV ('.' :: (b ++ 'v' :: n)) = true := by
    rw [hasV, if_neg (by decide : ('.' : Char) ≠ 'v')]
    exact h2
  rw [h3]
  simp

theorem versioned_fix {a b n : List Char} (ha : allDigits a = true) (hb : allDigits b = true)
    (hn : allDigits n = true) (ha0 : a ≠ []) (hb0 : b ≠ []) (hn0 : n ≠ []) :
    normList (a ++ '.' :: (b ++ 'v' :: n)) = a ++ '.' :: b := by
  obtain ⟨c, a2, rfl⟩ : ∃ c a2, a = c :: a2 := by
    cases a with
    | nil => exact absurd rfl ha0
    | cons c a2 => exact ⟨c, a2, rfl⟩
  have hc : c.isDigit = true := allDigits_mem ha c (List.mem_cons_self c a2)
  have hurl : normURL (c :: (a2 ++ '.' :: (b ++ 'v' :: n))) = c :: (a2 ++ '.' :: (b ++ 'v' :: n)) :=
    normURL_digit_head (a2 ++ '.' :: (b ++ 'v' :: n)) hc
  have hfm : fullMatchIdV ((c :: a2) ++ '.' :: (b ++ 'v' :: n)) = true :=
    fullMatch_v ha hb hn ha0 hb0 hn0
  have hv : hasV ((c :: a2) ++ '.' :: (b ++ 'v' :: n)) = true := hasV_dotted_v
  rw [List.cons_append] at hfm hv
  rw [List.cons_append]
  simp only [normList, hurl]
  rw [hv, hfm]
  simp only [Bool.and_self, if_pos rfl]
  have e : c :: (a2 ++ '.' :: (b ++ 'v' :: n)) = ((c :: a2) ++ '.' :: b) ++ 'v' :: n := by
    simp [List.append_assoc]
  rw [e, beforeV_append_v n (noV_dotted ha hb)]
  simp

theorem normURL_https_url {mid rest cap : List Char} (hmid : mid = absPre ∨ mid = pdfPre)
    (hcf : capFrom rest = some cap) (hnoP : ∀ x ∈ cap, x ≠ 'p') :
    normURL (httpsPre ++ (mid ++ rest)) = cap := by
  have hsw : startsWithL httpsPre (httpsPre ++ (mid ++ rest)) = true :=
    startsWithL_append_self httpsPre (mid ++ rest)
  have hus : urlSearch (httpsPre ++ (mid ++ rest)) = some cap := by
    rw [urlSearch_skip_no_a httpsPre (by decide) (mid ++ rest)]
    rcases hmid with rfl | rfl
    · exact urlSearch_of_matchAt (by rw [matchAt_abs]; exact hcf)
    · exact urlSearch_of_matchAt (by rw [matchAt_pdf]; exact hcf)
  simp [normURL, hsw, hus, replaceDotPdf_of_noP hnoP]

theorem normList_https_bare {mid a b : List Char} (hmid : mid = absPre ∨ mid = pdfPre)
    (ha : allDigits a = true) (hb : allDigits b = true) (ha0 : a ≠ []) (hb0 : b ≠ []) :
    normList (httpsPre ++ (mid ++ (a ++ '.' :: b))) = a ++ '.' :: b := by
  have hcf : capFrom (a ++ '.' :: b) = some (a ++ '.' :: b) := by
    have := capFrom_calc [] ha hb ha0 hb0 (Or.inl rfl)
    simpa [vPart_nil] using this
  have hnoP : ∀ x ∈ a ++ '.' :: b, x ≠ 'p' := by
    have := noP_cap (V := []) ha hb (Or.inl rfl)
    simpa using this
  have hurl := normURL_https_url hmid hcf hnoP
  have hv : hasV (a ++ '.' :: b) = false := hasV_eq_false (noV_dotted ha hb)
  simp only [normList, hurl]
  rw [hv]
  simp

theorem normList_https_versioned {mid a b n : List Char} (hmid : mid = absPre ∨ mid = pdfPre)
    (ha : allDigits a = true) (hb : allDigits b = true) (hn : allDigits n = true)
    (ha0 : a ≠ []) (hb0 : b ≠ []) (hn0 : n ≠ []) :
    normList (httpsPre ++ (mid ++ (a ++ '.' :: (b ++ 'v' :: n)))) = a ++ '.' :: b := by
  have hcf : capFrom (a ++ '.' :: (b ++ 'v' :: n)) = some (a ++ '.' :: (b ++ 'v' :: n)) := by
    have := capFrom_calc ('v' :: n) ha hb ha0 hb0 (Or.inr ⟨'v', n, rfl, by decide⟩)
    rwa [vPart_v hn hn0] at this
  have hnoP : ∀ x ∈ a ++ '.' :: (b ++ 'v' :: n), x ≠ 'p' :=
    noP_cap ha hb (Or.inr ⟨n, rfl, hn, hn0⟩)
  have hurl := normURL_https_url hmid hcf hnoP
  have hfm : fullMatchIdV (a ++ '.' :: (b ++ 'v' :: n)) = true :=
    fullMatch_v ha hb hn ha0 hb0 hn0
  have hv : hasV (a ++ '.' :: (b ++ 'v' :: n)) = true := hasV_dotted_v
  simp only [normList, hurl]
  rw [hv, hfm]
  simp only [Bool.and_self, if_pos rfl]
  have e : a ++ '.' :: (b ++ 'v' :: n) = (a ++ '.' :: b) ++ 'v' :: n := by
    simp [List.append_assoc]
  rw [e, beforeV_append_v n (noV_dotted ha hb)]
  exact if_pos trivial

theorem normList_pdf_ext {a b : List Char}
    (ha : allDigits a = true) (hb : allDigits b = true) (ha0 : a ≠ []) (hb0 : b ≠ []) :
    normList (httpsPre ++ (pdfPre ++ (a ++ '.' :: (b ++ '.' :: ['p', 'd', 'f'])))) =
      a ++ '.' :: b := by
  have hcf : capFrom (a ++ '.' :: (b ++ '.' :: ['p', 'd', 'f'])) = some (a ++ '.' :: b) := by
    have := capFrom_calc ('.' :: ['p', 'd', 'f']) ha hb ha0 hb0
      (Or.inr ⟨'.', ['p', 'd', 'f'], rfl, by decide⟩)
    rwa [vPart_not_v ['p', 'd', 'f'] (by decide), List.append_nil] at this
  have hnoP : ∀ x ∈ a ++ '.' :: b, x ≠ 'p' := by
    have := noP_cap (V := []) ha hb (Or.inl rfl)
    simpa using this
  have hurl := normURL_https_url (Or.inr rfl) hcf hnoP
  have hv : hasV (a ++ '.' :: b) = false := hasV_eq_false (noV_dotted ha hb)
  simp only [normList, hurl]
  rw [hv]
  simp

theorem normList_id_of_nohttp {s : List Char}
    (h1 : startsWithL httpPre s = false) (h2 : startsWithL httpsPre s = false)
    (h3 : fullMatchIdV s = false) : normList s = s := by
  have hurl : normURL s = s := by
    simp only [normURL]
    rw [h1, h2]
    simp
  simp only [normList, hurl]
  rw [h3]
  simp

theorem normList_id_of_nomatch {s : List Char}
    (h1 : urlSearch s = none) (h3 : fullMatchIdV s = false) : normList s = s := by
  have hurl : normURL s = s := by
    by_cases hsw : (startsWithL httpPre s || startsWithL httpsPre s) = true
    · simp [normURL, hsw, h1]
    · simp only [normURL]
      rw [if_neg hsw]
  simp only [normList, hurl]
  rw [h3]
  simp

theorem https_abs_chars : ("https://arxiv.org/abs/").data = httpsPre ++ absPre := by decide

theorem https_pdf_chars : ("https://arxiv.org/pdf/").data = httpsPre ++ pdfPre := by decide

/-- Claim C5: `normalize_arxiv_id` is a total pure function (it is a Lean
function on strings, so totality and purity hold by construction); every
accepted spelling (bare id, versioned id, abs-page URL, PDF URL, each with
or without a version suffix, and the PDF URL with `.pdf` extension) maps to
the bare `<digits>.<digits>` form; input the URL regex does not match and
input that is not a versioned id pass through unchanged; and the function
is idempotent on every string. -/
theorem claim_C5 :
    (∀ x : String, normalize_arxiv_id (normalize_arxiv_id x) = normalize_arxiv_id x)
    ∧ (∀ a b n : List Char, allDigits a = true → allDigits b = true → allDigits n = true →
        a ≠ [] → b ≠ [] → n ≠ [] →
        normalize_arxiv_id ⟨a ++ '.' :: b⟩ = ⟨a ++ '.' :: b⟩
        ∧ normalize_arxiv_id ⟨a ++ '.' :: (b ++ 'v' :: n)⟩ = ⟨a ++ '.' :: b⟩
        ∧ normalize_arxiv_id ⟨("https://arxiv.org/abs/").data ++ (a ++ '.' :: b)⟩ =
            ⟨a ++ '.' :: b⟩
        ∧ normalize_arxiv_id ⟨("https://arxiv.org/abs/").data ++ (a ++ '.' :: (b ++ 'v' :: n))⟩ =
            ⟨a ++ '.' :: b⟩
        ∧ normalize_arxiv_id ⟨("https://arxiv.org/pdf/").data ++ (a ++ '.' :: b)⟩ =
            ⟨a ++ '.' :: b⟩
        ∧ normalize_arxiv_id ⟨("https://arxiv.org/pdf/").data ++ (a ++ '.' :: (b ++ 'v' :: n))⟩ =
            ⟨a ++ '.' :: b⟩
        ∧ normalize_arxiv_id
            ⟨("https://arxiv.org/pdf/").data ++ (a ++ '.' :: (b ++ (".pdf").data))⟩ =
            ⟨a ++ '.' :: b⟩)
    ∧ (∀ x : String, startsWithL httpPre x.data = false → startsWithL httpsPre x.data = false →
        fullMatchIdV x.data = false → normalize_arxiv_id x = x)
    ∧ (∀ x : String, urlSearch x.data = none → fullMatchIdV x.data = false →
        normalize_arxiv_id x = x) := by
  refine ⟨normalize_arxiv_id_idem, ?_, ?_, ?_⟩
  · intro a b n ha hb hn ha0 hb0 hn0
    refine ⟨?_, ?_, ?_, ?_, ?_, ?_, ?_⟩
    · exact congrArg String.mk (bare_fix ha hb ha0)
    · exact congrArg String.mk (versioned_fix ha hb hn ha0 hb0 hn0)
    · refine congrArg String.mk ?_
      rw [https_abs_chars, List.append_assoc]
      exact normList_https_bare (Or.inl rfl) ha hb ha0 hb0
    · refine congrArg String.mk ?_
      rw [https_abs_chars, List.append_assoc]
      exact normList_https_versioned (Or.inl rfl) ha hb hn ha0 hb0 hn0
    · refine congrArg String.mk ?_
      rw [https_pdf_chars, List.append_assoc]
      exact normList_https_bare (Or.inr rfl) ha hb ha0 hb0
    · refine congrArg String.mk ?_
      rw [https_pdf_chars, List.append_assoc]
      exact normList_https_versioned (Or.inr rfl) ha hb hn ha0 hb0 hn0
    · refine congrArg String.mk ?_
      rw [https_pdf_chars, List.append_assoc]
      exact normList_pdf_ext ha hb ha0 hb0
  · intro x h1 h2 h3
    exact congrArg String.mk (normList_id_of_nohttp h1 h2 h3)
  · intro x h1 h3
    exact congrArg String.mk (normList_id_of_nomatch h1 h3)

/-- Witness for C5 at concrete inputs. -/
theorem claim_C5_witness :
    normalize_arxiv_id ("2201.00001v7") = ("2201.00001")
    ∧ normalize_arxiv_id ("hello") = ("hello") := by
  have h := claim_C5
  constructor
  · exact (h.2.1 ['2', '2', '0', '1'] ['0', '0', '0', '0', '1'] ['7'] (by decide) (by decide)
      (by decide) (by decide) (by decide) (by decide)).2.1
  · exact h.2.2.1 ("hello") (by decide) (by decide) (by decide)

/-! ### Parser claim lemmas -/

theorem collectEntries_append (xs ys : List Entry) :
    collectEntries (xs ++ ys) = collectEntries xs ++ collectEntries ys := by
  induction xs with
  | nil => rfl
  | cons e t ih =>
    rw [List.cons_append]
    rcases hp : parse_entry e with u | o
    · simp [collectEntries, hp, ih]
    · rcases o with _ | p
      · simp [collectEntries, hp, ih]
      · simp [collectEntries, hp, ih]

theorem collect_cons_skip {e : Entry} {t : List Entry}
    (h : ∀ p, parse_entry e ≠ Except.ok (some p)) :
    collectEntries (e :: t) = collectEntries t := by
  rcases hp : parse_entry e with u | o
  · simp [collectEntries, hp]
  · rcases o with _ | p
    · simp [collectEntries, hp]
    · exact absurd hp (h p)

theorem parse_response_skip {tr : Option String} {xs ys : List Entry} {e : Entry}
    (h : ∀ p, parse_entry e ≠ Except.ok (some p)) :
    parse_response ⟨tr, xs ++ e :: ys⟩ = parse_response ⟨tr, xs ++ ys⟩ := by
  rcases hti : pyIntOfOpt tr with _ | v
  · simp [parse_response, hti]
  · simp [parse_response, hti, collectEntries_append, collect_cons_skip h]

theorem badEntry_skip {e : Entry} (h : badEntry e = true) :
    parse_entry e = Except.ok none := by
  unfold badEntry at h
  cases hr : requiredOk e with
  | false => simp [parse_entry, hr]
  | true =>
    rw [hr] at h
    simp only [Bool.not_true, Bool.false_or, Bool.or_eq_true] at h
    rcases h with h | h
    · have ha : extractAuthors e = [] := List.isEmpty_iff.mp h
      simp [parse_entry, hr, ha]
    · by_cases ha : extractAuthors e = []
      · simp [parse_entry, hr, ha]
      · have hc : extractCats e = [] := List.isEmpty_iff.mp h
        simp [parse_entry, hr, ha, hc]

theorem entry_datetime_error {e : Entry} (hr : requiredOk e = true)
    (hauth : extractAuthors e ≠ []) (hcat : extractCats e ≠ [])
    (hd : parse_datetime (orEmpty e.publishedTxt) = none) :
    parse_entry e = Except.error () := by
  simp [parse_entry, hr, hauth, hcat, hd]

/-- Claim C1: entries missing (or with empty) identifier, title, abstract
or published text, or with an empty extracted author list, or with no
category terms, are skipped while parsing continues; a document whose
total-results text parses never fails on entries; and the concrete
three-entry batch with one author-less entry yields exactly the two good
records. -/
theorem claim_C1 :
    (∀ (tr : Option String) (xs ys : List Entry) (e : Entry), badEntry e = true →
      parse_response ⟨tr, xs ++ e :: ys⟩ = parse_response ⟨tr, xs ++ ys⟩)
    ∧ (∀ (tr : Option String) (es : List Entry), (pyIntOfOpt tr).isSome = true →
      isErr (parse_response ⟨tr, es⟩) = false)
    ∧ parse_response doc3 = Except.ok [papA, papC] := by
  refine ⟨?_, ?_, by rfl⟩
  · intro tr xs ys e hbad
    have hb := badEntry_skip hbad
    refine parse_response_skip ?_
    intro p hp
    rw [hb] at hp
    injection hp with h2
    exact Option.noConfusion h2
  · intro tr es hsome
    rcases hti : pyIntOfOpt tr with _ | v
    · rw [hti] at hsome; exact Bool.noConfusion hsome
    · simp [parse_response, hti, isErr]

/-- Witness for C1: dropping the author-less entry from a batch does not
change the result. -/
theorem claim_C1_witness :
    parse_response ⟨some ("3"), [entB]⟩ = parse_response ⟨some ("3"), []⟩ :=
  claim_C1.1 (some ("3")) [] [] entB (by decide)

/-- Counterexample to C2 as stated: a document whose only entry has a
present but malformed published timestamp parses successfully to an empty
list; no error is raised to the caller. -/
theorem claim_C2_counterexample :
    truthy entBadTs.publishedTxt = true
    ∧ parse_datetime (orEmpty entBadTs.publishedTxt) = none
    ∧ parse_response docBadTs = Except.ok []
    ∧ isErr (parse_response docBadTs) = false :=
  ⟨by rfl, by rfl, by rfl, by rfl⟩

/-- Claim C2 (amended): an entry whose published timestamp is present but
malformed makes `_parse_entry` raise, but the per-entry handler in
`_parse_response` catches the exception and skips the entry; parsing of
the remaining entries continues and the call does not fail. -/
theorem claim_C2_amended :
    ∀ (tr : Option String) (xs ys : List Entry) (e : Entry),
      requiredOk e = true → extractAuthors e ≠ [] → extractCats e ≠ [] →
      parse_datetime (orEmpty e.publishedTxt) = none →
      parse_entry e = Except.error ()
      ∧ parse_response ⟨tr, xs ++ e :: ys⟩ = parse_response ⟨tr, xs ++ ys⟩ := by
  intro tr xs ys e hr hauth hcat hd
  have he := entry_datetime_error hr hauth hcat hd
  refine ⟨he, parse_response_skip ?_⟩
  intro p hp
  rw [he] at hp
  exact Except.noConfusion hp

/-- Witness for the amended C2 at the concrete malformed-timestamp entry. -/
theorem claim_C2_witness :
    parse_entry entBadTs = Except.error ()
    ∧ parse_response ⟨some ("1"), [entBadTs]⟩ = parse_response ⟨some ("1"), []⟩ :=
  claim_C2_amended (some ("1")) [] [] entBadTs (by decide) (by decide) (by decide) (by rfl)

/-- Counterexample to C9 as stated: the entry whose identifier ends in the
segment `nova` (which contains no `v<digits>` version suffix) parses to a
record whose id is `no`, not the unchanged segment `nova`: the code cuts
at the first letter `v`, not at a trailing version suffix. -/
theorem claim_C9_counterexample :
    parse_entry entNova = Except.ok (some papNova)
    ∧ papNova.arxiv_id = ("no")
    ∧ ("no" : String) ≠ ("nova") :=
  ⟨by rfl, by rfl, by decide⟩

/-- Claim C9 (amended): for every successfully parsed entry the record id
is the final slash-separated segment of the identifier text truncated at
its first `'v'`; the final segment of a path is extracted exactly; a
segment without any `'v'` is kept whole, and a segment of the form
`<no-v-part>v<anything>` is truncated to the part before the `'v'` (so a
trailing `v<digits>` suffix is removed whenever no earlier `'v'` occurs). -/
theorem claim_C9_amended :
    (∀ (e : Entry) (p : ArxivPaper), parse_entry e = Except.ok (some p) →
      p.arxiv_id = ⟨beforeV (afterLastSlash (orEmpty e.idTxt).data)⟩)
    ∧ (∀ lead seg : List Char, (∀ x ∈ seg, x ≠ '/') →
      afterLastSlash (lead ++ '/' :: seg) = seg)
    ∧ (∀ l : List Char, (∀ x ∈ l, x ≠ 'v') → beforeV l = l)
    ∧ (∀ l r : List Char, (∀ x ∈ l, x ≠ 'v') → beforeV (l ++ 'v' :: r) = l) := by
  refine ⟨?_, ?_, ?_, ?_⟩
  · intro e p h
    unfold parse_entry at h
    split at h
    · split at h
      · exact absurd h (by simp)
      · split at h
        · exact absurd h (by simp)
        · split at h
          · exact absurd h (by simp)
          · rename_i pd hpd
            injection h with h1
            injection h1 with h2
            rw [← h2]
            rfl
    · exact absurd h (by simp)
  · intro lead seg hseg
    unfold afterLastSlash
    have e1 : (lead ++ '/' :: seg).reverse = seg.reverse ++ '/' :: lead.reverse := by
      simp [List.reverse_append, List.reverse_cons, List.append_assoc]
    rw [e1]
    rw [takeWhile_append_stop (by decide) seg.reverse lead.reverse
      (fun x hx => by simpa using hseg x (List.mem_reverse.mp hx))]
    exact List.reverse_reverse seg
  · intro l hl
    exact beforeV_of_noV hl
  · intro l r hl
    exact beforeV_append_v r hl

/-- Witness for the amended C9 at a concrete entry. -/
theorem claim_C9_witness :
    papA.arxiv_id = ⟨beforeV (afterLastSlash (orEmpty entA.idTxt).data)⟩ :=
  claim_C9_amended.1 entA papA (by rfl)

/-- Counterexample to C3 as stated: `get_categories` on the known major
category `math` also returns `math-ph`, whose code neither starts with
`math.` nor equals the bare filter `math`; the code uses a plain prefix
test on the lowercased code. -/
theorem claim_C3_counterexample :
    List.lookup ("math-ph") (get_categories (some ("math"))) = some ("Mathematical Physics")
    ∧ startsWithL ("math.").data ("math-ph").data = false
    ∧ ("math-ph" : String) ≠ ("math") :=
  ⟨by decide, by decide, by decide⟩

/-- Claim C3 (amended): for a non-empty filter whose lowercase form is a
known major category, `get_categories` returns exactly the entries whose
lowercased code starts with the lowercased filter (this admits codes such
as `math-ph` under the filter `math`); for a non-empty unknown filter it
returns the empty mapping without error; with no filter (or the empty
string, which Python treats as absent) it returns the full table; in
particular the `cs` listing contains `cs.AI` and only codes with major
prefix `cs`, and the `zz` listing is empty. -/
theorem claim_C3_amended :
    (∀ f : String, f ≠ "" → ARXIV_MAJOR_CATEGORIES.contains (pyLower f) = true →
      get_categories (some f) =
        ARXIV_CATEGORIES.filter (fun p => startsWithL (pyLower f).data (pyLower p.1).data))
    ∧ (∀ f : String, f ≠ "" → ARXIV_MAJOR_CATEGORIES.contains (pyLower f) = false →
      get_categories (some f) = [])
    ∧ get_categories none = ARXIV_CATEGORIES
    ∧ get_categories (some ("")) = ARXIV_CATEGORIES
    ∧ List.lookup ("cs.AI") (get_categories (some ("cs"))) = some ("Artificial Intelligence")
    ∧ (get_categories (some ("cs"))).all (fun p => majorOf p.1 == "cs") = true
    ∧ get_categories (some ("zz")) = [] := by
  refine ⟨?_, ?_, by rfl, by rfl, by decide, by rfl, by rfl⟩
  · intro f hf hc
    simp only [get_categories]
    rw [if_neg hf, if_pos hc]
  · intro f hf hc
    simp only [get_categories]
    rw [if_neg hf, if_neg (by simpa using hc)]

/-- Witness for the amended C3 at concrete filters. -/
theorem claim_C3_witness :
    get_categories (some ("zz")) = []
    ∧ get_categories (some ("cs")) =
      ARXIV_CATEGORIES.filter (fun p => startsWithL (pyLower ("cs")).data (pyLower p.1).data) := by
  constructor
  · exact claim_C3_amended.2.1 ("zz") (by decide) (by decide)
  · exact claim_C3_amended.1 ("cs") (by decide) (by decide)

/-- Claim C8: a record constructed without `pdf_url` and with a non-empty
id derives `pdf_url = https://arxiv.org/pdf/<id>`; a non-empty caller
supplied `pdf_url` is kept unchanged; and every record with a non-empty id
carries some `pdf_url` (the derivation is always applied). -/
theorem claim_C8 :
    (∀ (i t : String) (au : List String) (ab : String) (cs : List String) (pd : String)
      (cm : Option String) (ais : Option AISummary) (sc : Option Rat),
      i ≠ "" →
      (mkArxivPaper i t au ab cs pd cm ais sc none).pdf_url =
        some ("https://arxiv.org/pdf/" ++ i))
    ∧ (mkArxivPaper ("2301.00001") ("T") ["A"] ("ab") ["cs.AI"] ("2023-01-01") none none none
        none).pdf_url = some ("https://arxiv.org/pdf/2301.00001")
    ∧ (∀ (i t : String) (au : List String) (ab : String) (cs : List String) (pd : String)
      (cm : Option String) (ais : Option AISummary) (sc : Option Rat) (v : String),
      v ≠ "" →
      (mkArxivPaper i t au ab cs pd cm ais sc (some v)).pdf_url = some v)
    ∧ (∀ (i t : String) (au : List String) (ab : String) (cs : List String) (pd : String)
      (cm : Option String) (ais : Option AISummary) (sc : Option Rat) (pu : Option String),
      i ≠ "" → (mkArxivPaper i t au ab cs pd cm ais sc pu).pdf_url.isSome = true) := by
  refine ⟨?_, by rfl, ?_, ?_⟩
  · intro i t au ab cs pd cm ais sc hi
    simp [mkArxivPaper, truthy, hi]
  · intro i t au ab cs pd cm ais sc v hv
    simp [mkArxivPaper, truthy, hv]
  · intro i t au ab cs pd cm ais sc pu hi
    rcases pu with _ | v
    · simp [mkArxivPaper, truthy, hi]
    · by_cases hv : v = ""
      · simp [mkArxivPaper, truthy, hv, hi]
      · simp [mkArxivPaper, truthy, hv]

/-- Witness for C8 at a concrete id and a concrete supplied URL. -/
theorem claim_C8_witness :
    (mkArxivPaper ("2301.00001") ("T") ["A"] ("ab") ["cs.AI"] ("2023-01-01") none none none
      none).pdf_url = some ("https://arxiv.org/pdf/2301.00001")
    ∧ (mkArxivPaper ("2301.00001") ("T") ["A"] ("ab") ["cs.AI"] ("2023-01-01") none none none
      (some ("http://x/y.pdf"))).pdf_url = some ("http://x/y.pdf") := by
  constructor
  · exact claim_C8.1 ("2301.00001") ("T") ["A"] ("ab") ["cs.AI"] ("2023-01-01") none none none
      (by decide)
  · exact claim_C8.2.2.1 ("2301.00001") ("T") ["A"] ("ab") ["cs.AI"] ("2023-01-01") none none
      none ("http://x/y.pdf") (by decide)

/-! ### Search orchestration claim lemmas -/

theorem kwClauses_nil {a : KwArgs} (h1 : truthy a.title = false) (h2 : truthy a.author = false)
    (h3 : truthy a.abstract = false) (h4 : truthy a.category = false)
    (h5 : truthy a.all_fields = false)
    (h6 : (truthy a.start_date && truthy a.end_date) = false) :
    kwClauses a = [] := by
  simp [kwClauses, h1, h2, h3, h4, h5, h6]

theorem search_keyword_missing {a : KwArgs} (h : kwClauses a = []) :
    search_keyword a = Except.error VErr.missingCriteria := by
  simp [search_keyword, h]

/-- Claim C4 is a code bug in the source: the `try` block around the date
formatting contains only `str.replace` and concatenation, which are total,
so the `except` branch that would raise the `ValidationError` is dead
code.  Evaluating the embedded builder at a malformed date pair shows the
malformed clause is emitted silently instead of raising. -/
theorem claim_C4_bug :
    search_keyword kwBadDates =
      Except.ok ⟨"ti:\"a\" AND submittedDate:[2023/01/010000 TO 2023/01/312359]", 0, 10,
        "submittedDate", "descending"⟩ := by rfl

/-- Counterexample to C6 as stated: with every search field absent but
both dates supplied, no `ValidationError` is raised; the request is built
from the date clause alone. -/
theorem claim_C6_counterexample :
    search_keyword kwDatesOnly =
      Except.ok ⟨"submittedDate:[202301010000 TO 202301312359]", 0, 10, "submittedDate",
        "descending"⟩ := by rfl

/-- Claim C6 (amended): the builder raises the missing-criteria
`ValidationError` exactly when every search field is empty or absent and
the two dates are not both supplied non-empty (a complete date range alone
counts as a criterion); on success the query is the `" AND "`-join of one
clause per non-empty field in the fixed order title, author, abstract,
category, allFields, date-range; the two concrete examples of the claim
hold. -/
theorem claim_C6_amended :
    (∀ a : KwArgs, truthy a.title = false → truthy a.author = false →
      truthy a.abstract = false → truthy a.category = false → truthy a.all_fields = false →
      (truthy a.start_date && truthy a.end_date) = false →
      search_keyword a = Except.error VErr.missingCriteria)
    ∧ (∀ (a : KwArgs) (r : ArxivReq), search_keyword a = Except.ok r →
      r.search_query = String.intercalate (" AND ")
        ((if truthy a.title then ["ti:\"" ++ orEmpty a.title ++ "\""] else []) ++
         (if truthy a.author then ["au:\"" ++ orEmpty a.author ++ "\""] else []) ++
         (if truthy a.abstract then ["abs:\"" ++ orEmpty a.abstract ++ "\""] else []) ++
         (if truthy a.category then ["cat:" ++ orEmpty a.category] else []) ++
         (if truthy a.all_fields then ["all:" ++ orEmpty a.all_fields] else []) ++
         (if truthy a.start_date && truthy a.end_date then
           ["submittedDate:[" ++ removeDashes (orEmpty a.start_date) ++ "0000 TO " ++
             removeDashes (orEmpty a.end_date) ++ "2359]"] else [])))
    ∧ search_keyword kwCatOnly = Except.ok ⟨"cat:cs.AI", 0, 10, "submittedDate", "descending"⟩
    ∧ search_keyword kwTitleRange =
        Except.ok ⟨"ti:\"a\" AND submittedDate:[202301010000 TO 202301312359]", 0, 10,
          "submittedDate", "descending"⟩ := by
  refine ⟨?_, ?_, by rfl, by rfl⟩
  · intro a h1 h2 h3 h4 h5 h6
    exact search_keyword_missing (kwClauses_nil h1 h2 h3 h4 h5 h6)
  · intro a r h
    simp only [search_keyword] at h
    split at h
    · exact absurd h (by simp)
    · split at h
      · exact absurd h (by simp)
      · split at h
        · exact absurd h (by simp)
        · injection h with h1
          rw [← h1]
          rfl

/-- Witness for the amended C6: the all-defaults call raises the
missing-criteria error. -/
theorem claim_C6_witness :
    search_keyword kwDefault = Except.error VErr.missingCriteria :=
  claim_C6_amended.1 kwDefault (by rfl) (by rfl) (by rfl) (by rfl) (by rfl) (by rfl)

/-- Claim C7: both operations validate before any request is produced: a
`page_size` outside `[1, 15]` makes either operation fail with a
`ValidationError` (for the keyword operation possibly the missing-criteria
one, which is also a `ValidationError`), while `page_size = 15` passes on
well-formed calls; the keyword operation also rejects a negative start
offset `(page - 1) * page_size`; the semantic operation also rejects an
empty (all-whitespace) query, `page < 1`, and, when both time bounds are
supplied non-empty, a start time lexicographically greater than the end
time. -/
theorem claim_C7 :
    (∀ a : KwArgs, a.page_size > 15 ∨ a.page_size < 1 → isErr (search_keyword a) = true)
    ∧ (∀ a : SemArgs, a.page_size < 1 ∨ a.page_size > 15 → isErr (semantic_search a) = true)
    ∧ search_keyword kwCatSize15 = Except.ok ⟨"cat:cs.AI", 0, 15, "submittedDate", "descending"⟩
    ∧ semantic_search semSize15 =
        Except.ok ⟨"quantum computing", 1, 15, false, false, none, none, none⟩
    ∧ (∀ a : KwArgs, (a.page - 1) * a.page_size < 0 → isErr (search_keyword a) = true)
    ∧ (∀ a : SemArgs, pyStrip a.query = "" → isErr (semantic_search a) = true)
    ∧ (∀ a : SemArgs, a.page < 1 → isErr (semantic_search a) = true)
    ∧ (∀ a : SemArgs, truthy a.start_time = true → truthy a.end_time = true →
        pyStrGt (orEmpty a.start_time) (orEmpty a.end_time) = true →
        isErr (semantic_search a) = true) := by
  refine ⟨?_, ?_, by rfl, by rfl, ?_, ?_, ?_, ?_⟩
  · intro a h
    have hc : (decide (a.page_size > 15) || decide (a.page_size < 1)) = true := by
      rcases h with h | h <;> simp [h]
    simp only [search_keyword]
    split
    · rfl
    · rfl
  · intro a h
    have hc : (decide (a.page_size < 1) || decide (a.page_size > 15)) = true := by
      rcases h with h | h <;> simp [h]
    simp only [semantic_search]
    split
    · rfl
    · split
      · rfl
      · rfl
  · intro a h
    simp only [search_keyword]
    split
    · rfl
    · split
      · rfl
      · rfl
  · intro a h
    simp only [semantic_search]
    split
    · rfl
    · rename_i hcond
      exact absurd h hcond
  · intro a h
    simp only [semantic_search]
    split
    · rfl
    · rfl
  · intro a h1 h2 h3
    have hc : (truthy a.start_time && truthy a.end_time &&
        pyStrGt (orEmpty a.start_time) (orEmpty a.end_time)) = true := by
      rw [h1, h2, h3]
      rfl
    simp only [semantic_search]
    split
    · rfl
    · split
      · rfl
      · split
        · rfl
        · rfl

/-- Witness for C7 at concrete invalid calls. -/
theorem claim_C7_witness :
    isErr (search_keyword kwCat16) = true
    ∧ isErr (semantic_search semBadOrder) = true := by
  constructor
  · exact claim_C7.1 kwCat16 (Or.inl (by decide))
  · exact claim_C7.2.2.2.2.2.2.2 semBadOrder (by rfl) (by rfl) (by decide)

/-- Counterexample to C10 as stated: with every search field absent but
both dates supplied and `page_size = 0`, the error raised is the
pagination-bounds one, not the missing-criteria one. -/
theorem claim_C10_counterexample :
    search_keyword kwDatesOnlyBadSize = Except.error VErr.pageSizeRange
    ∧ VErr.pageSizeRange ≠ VErr.missingCriteria :=
  ⟨by rfl, by decide⟩

/-- Claim C10 (amended): when every search field is empty or absent and
the two dates are not both supplied non-empty, the missing-criteria
`ValidationError` is raised even when `page_size` is outside `[1, 15]` —
query emptiness is checked before pagination validation; when both dates
are supplied the clause list is non-empty and the pagination error wins
instead. -/
theorem claim_C10_amended :
    (∀ a : KwArgs, truthy a.title = false → truthy a.author = false →
      truthy a.abstract = false → truthy a.category = false → truthy a.all_fields = false →
      (truthy a.start_date && truthy a.end_date) = false →
      (a.page_size > 15 ∨ a.page_size < 1) →
      search_keyword a = Except.error VErr.missingCriteria)
    ∧ (∀ a : KwArgs, truthy a.title = false → truthy a.author = false →
      truthy a.abstract = false → truthy a.category = false → truthy a.all_fields = false →
      truthy a.start_date = true → truthy a.end_date = true →
      (a.page_size > 15 ∨ a.page_size < 1) →
      search_keyword a = Except.error VErr.pageSizeRange) := by
  constructor
  · intro a h1 h2 h3 h4 h5 h6 _
    exact search_keyword_missing (kwClauses_nil h1 h2 h3 h4 h5 h6)
  · intro a h1 h2 h3 h4 h5 h6 h7 hsz
    have hcl : kwClauses a =
        ["submittedDate:[" ++ removeDashes (orEmpty a.start_date) ++ "0000 TO " ++
          removeDashes (orEmpty a.end_date) ++ "2359]"] := by
      simp [kwClauses, h1, h2, h3, h4, h5, h6, h7]
    have hc : (decide (a.page_size > 15) || decide (a.page_size < 1)) = true := by
      rcases hsz with h | h <;> simp [h]
    simp only [search_keyword, hcl]
    rw [if_neg (by simp), if_pos hc]

/-- Witness for the amended C10: the empty call with `page_size = 0` hits
the missing-criteria error, not the pagination error. -/
theorem claim_C10_witness :
    search_keyword kwEmptyBadSize = Except.error VErr.missingCriteria :=
  claim_C10_amended.1 kwEmptyBadSize (by rfl) (by rfl) (by rfl) (by rfl) (by rfl) (by rfl)
    (Or.inr (by decide))
